import Mathlib

/-!
Verification of the RAG control loop in `graph_rag.py` (Financial-RAG).

The LangGraph state machine is shallowly embedded: the `GraphState` TypedDict
becomes a structure, each graph node becomes a function from the state to the
partial state update (`Patch`) it returns, external capabilities (retriever,
relevance classifier, query rewriter, LLM completion, `json.loads`) become
function parameters, and a Python exception raised by a node becomes `none`
(an `Option`-valued node result). The compiled graph's wiring and conditional
edge become an inductive step relation on configurations (current node paired
with the current state).
-/

namespace FinancialRAG

/-- `langchain_core.documents.Document` as used by `graph_rag.py`:
only `page_content` is read; metadata is carried along opaquely. -/
structure Document where
  page_content : String
  metadata : List (String × String) := []
deriving DecidableEq, Repr

/-- The `GraphState` TypedDict of `graph_rag.py`.  `loop_count` is an
`Option` because the code reads it with `state.get("loop_count", 0)` in
`retrieve_node` (the key may be absent in the initial state); the other
fields are modelled total, with the initial run supplying them. -/
structure GraphState where
  question : String
  documents : List Document
  generation : String
  jargon_dict : List (String × String)
  loop_count : Option Nat
deriving DecidableEq, Repr

/-- A LangGraph node's return value: the partial dict merged into the state.
A field is `none` when the node's returned dict does not mention that key. -/
structure Patch where
  question : Option String := none
  documents : Option (List Document) := none
  generation : Option String := none
  jargon_dict : Option (List (String × String)) := none
  loop_count : Option (Option Nat) := none
deriving DecidableEq, Repr

/-- LangGraph merge semantics: keys present in the patch overwrite the
state, all other keys are left as they were. -/
def applyPatch (s : GraphState) (p : Patch) : GraphState :=
  { question := p.question.getD s.question
    documents := p.documents.getD s.documents
    generation := p.generation.getD s.generation
    jargon_dict := p.jargon_dict.getD s.jargon_dict
    loop_count := p.loop_count.getD s.loop_count }

/-- `retrieve_node`: replaces `documents` with the retriever's result and
passes `question` through; `loop_count` is read with default 0
(`state.get("loop_count", 0)`).  The retriever's answer for the current
question is the parameter `retrieved`. -/
def retrieve_node (retrieved : List Document) (s : GraphState) : Patch :=
  { documents := some retrieved
    question := some s.question
    loop_count := some (some (s.loop_count.getD 0)) }

/-- The grading loop of `grade_documents_node`: each document is sent to the
structured-output relevance grader in order; `classify d = none` models the
grading call raising an exception for `d`, which (there being no handler in
the Python loop) aborts the whole node, so the result is `none`. -/
def filterDocs (classify : Document → Option Bool) : List Document → Option (List Document)
  | [] => some []
  | d :: ds =>
    match classify d with
    | none => none
    | some true => (filterDocs classify ds).map (d :: ·)
    | some false => filterDocs classify ds

/-- `grade_documents_node`: reads `question`, `documents`, `loop_count` from
the state (a missing `loop_count` key would raise a `KeyError`, hence
`none`), filters the documents through the relevance grader, and returns the
filtered list together with the unchanged question and loop count. -/
def grade_documents_node (classify : Document → Option Bool) (s : GraphState) : Option Patch :=
  match s.loop_count with
  | none => none
  | some lc =>
    (filterDocs classify s.documents).map fun fd =>
      { documents := some fd, question := some s.question, loop_count := some (some lc) }

/-- `rewrite_query_node`: replaces the question by the rewriter's output,
passes `documents` through unchanged and increments `loop_count` by 1.
`rewritten` is the content of the rewriting model's reply. -/
def rewrite_query_node (rewritten : String) (s : GraphState) : Option Patch :=
  match s.loop_count with
  | none => none
  | some lc =>
    some { question := some rewritten
           documents := some s.documents
           loop_count := some (some (lc + 1)) }

/-- If `pat` is a front segment of `s`, return the remainder after it. -/
def stripPat : List Char → List Char → Option (List Char)
  | [], s => some s
  | _ :: _, [] => none
  | p :: ps, c :: cs => if p = c then stripPat ps cs else none

/-- Fuelled worker for `replaceAll`; fuel bounds the scan length. -/
def replaceAllGo (pat repl : List Char) : Nat → List Char → List Char
  | _, [] => []
  | 0, s => s
  | Nat.succ fuel, c :: cs =>
    match stripPat pat (c :: cs) with
    | some rest => repl ++ replaceAllGo pat repl fuel rest
    | none => c :: replaceAllGo pat repl fuel cs

/-- Python `str.replace` for a non-empty pattern: replace every
non-overlapping occurrence of `pat` by `repl`, scanning left to right. -/
def replaceAll (pat repl s : List Char) : List Char :=
  replaceAllGo pat repl s.length s

/-- Drop leading whitespace characters. -/
def dropLeadingWS : List Char → List Char
  | [] => []
  | c :: cs => if c.isWhitespace then dropLeadingWS cs else c :: cs

/-- Python `str.strip`: remove leading and trailing whitespace. -/
def trimChars (s : List Char) : List Char :=
  ((dropLeadingWS ((dropLeadingWS s).reverse)).reverse)

/-- The markdown stripping applied to the jargon model's raw reply:
`response.content.replace("```json", "").replace("```", "").strip()`. -/
def stripMarkdown (raw : String) : String :=
  String.mk (trimChars (replaceAll "```".data [] (replaceAll "```json".data [] raw.data)))

/-- `explain_jargon_node`.  `reply` is the outcome of `chain.invoke({})`
(`none` models the model call raising — that call sits OUTSIDE the
`try` block in the source, so its failure aborts the node).  `parse` models
`json.loads` restricted to flat string-to-string objects; `parse r = none`
models `json.loads` raising, which IS caught and leaves `jargon_dict = {}`.
The returned dict mentions only the `jargon_dict` key. -/
def explain_jargon_node (reply : Option String)
    (parse : String → Option (List (String × String))) : Option Patch :=
  reply.map fun content =>
    { jargon_dict := some ((parse (stripMarkdown content)).getD []) }

/-- The fixed fallback answer of `generate_answer_node`, verbatim. -/
def fallbackApology : String :=
  "I\x27m sorry, I couldn\x27t find enough relevant information in the SEC filings to answer your question accurately."

/-- `generate_answer_node`: reads `question`, `documents`, `loop_count`
(raising on a missing key) and `jargon_dict` (with default `{}`).  If the
document list is empty and `loop_count >= 3` it returns the fixed apology
with no model call; otherwise it issues the synthesis completion, whose
outcome is `complete` (`none` models that call raising). -/
def generate_answer_node (complete : Option String) (s : GraphState) : Option Patch :=
  match s.loop_count with
  | none => none
  | some lc =>
    if s.documents.isEmpty ∧ 3 ≤ lc then
      some { generation := some fallbackApology }
    else
      complete.map fun text => { generation := some text }

/-- `grade_decision_edge`: the conditional edge run on the state AFTER the
grading patch is applied.  It reads `documents` and `loop_count` (a missing
`loop_count` raises) and returns one of the three route labels. -/
def grade_decision_edge (s : GraphState) : Option String :=
  s.loop_count.map fun lc =>
    if s.documents.isEmpty then
      if 3 ≤ lc then "generate" else "rewrite"
    else "explain_jargon"

/-- The nodes of the compiled graph, plus the terminal `END` vertex. -/
inductive Node where
  | retrieve
  | grade_documents
  | rewrite_query
  | explain_jargon
  | generate_answer
  | terminal
deriving DecidableEq, Repr

/-- The routing dict of `add_conditional_edges`: label to target node. -/
def decisionTarget (label : String) : Option Node :=
  if label = "explain_jargon" then some .explain_jargon
  else if label = "rewrite" then some .rewrite_query
  else if label = "generate" then some .generate_answer
  else none

/-- A configuration of the compiled graph: the node about to run (or
`terminal`) together with the current state. -/
abbrev Config := Node × GraphState

/-- One step of the compiled graph (`compile_rag_graph`'s wiring), for an
arbitrary environment: the constructors' data arguments (`retrieved`,
`classify`, `rewritten`, `reply`/`parse`, `complete`) range over every
possible behaviour of the external retriever and model calls at that step.
A node whose Python code raises yields no step (the run aborts). -/
inductive Step : Config → Config → Prop where
  | retrieve_step (s : GraphState) (retrieved : List Document) :
      Step (.retrieve, s) (.grade_documents, applyPatch s (retrieve_node retrieved s))
  | grade_step (s : GraphState) (classify : Document → Option Bool) (p : Patch) (n : Node)
      (hp : grade_documents_node classify s = some p)
      (hn : (grade_decision_edge (applyPatch s p)).bind decisionTarget = some n) :
      Step (.grade_documents, s) (n, applyPatch s p)
  | rewrite_step (s : GraphState) (rewritten : String) (p : Patch)
      (hp : rewrite_query_node rewritten s = some p) :
      Step (.rewrite_query, s) (.retrieve, applyPatch s p)
  | explain_step (s : GraphState) (content : String)
      (parse : String → Option (List (String × String))) (p : Patch)
      (hp : explain_jargon_node (some content) parse = some p) :
      Step (.explain_jargon, s) (.generate_answer, applyPatch s p)
  | generate_step (s : GraphState) (complete : Option String) (p : Patch)
      (hp : generate_answer_node complete s = some p) :
      Step (.generate_answer, s) (.terminal, applyPatch s p)

/-- Well-formedness of a jargon mapping as the spec demands it: every term
key and every definition is a non-empty string. -/
def WellFormedJargon (m : List (String × String)) : Prop :=
  ∀ p ∈ m, p.1 ≠ "" ∧ p.2 ≠ ""

instance (m : List (String × String)) : Decidable (WellFormedJargon m) :=
  inferInstanceAs (Decidable (∀ p ∈ m, _ ∧ _))

/-! Helper lemmas about the grading loop. -/

theorem filterDocs_total (rel : Document → Bool) (ds : List Document) :
    filterDocs (fun d => some (rel d)) ds = some (ds.filter rel) := by
  induction ds with
  | nil => rfl
  | cons d ds ih =>
    by_cases hd : rel d
    · simp [filterDocs, hd, ih, List.filter_cons]
    · simp [filterDocs, hd, ih, List.filter_cons]

theorem filterDocs_fail (classify : Document → Option Bool) (ds : List Document)
    (hfail : ∃ d ∈ ds, classify d = none) :
    filterDocs classify ds = none := by
  induction ds with
  | nil => exact absurd hfail (by simp)
  | cons d ds ih =>
    rcases hfail with ⟨e, he, hce⟩
    rcases List.mem_cons.mp he with rfl | he
    · simp [filterDocs, hce]
    · cases hcd : classify d with
      | none => simp [filterDocs, hcd]
      | some b =>
        cases b <;> simp [filterDocs, hcd, ih ⟨e, he, hce⟩]

/-! Inversion lemmas: what a successful node run tells us about its patch. -/

theorem grade_node_inv {classify : Document → Option Bool} {s : GraphState} {p : Patch}
    (hp : grade_documents_node classify s = some p) :
    ∃ lc fd, s.loop_count = some lc ∧ filterDocs classify s.documents = some fd ∧
      p = { documents := some fd, question := some s.question,
            loop_count := some (some lc) } := by
  unfold grade_documents_node at hp
  cases hl : s.loop_count with
  | none => rw [hl] at hp; exact absurd hp (by simp)
  | some lc =>
    rw [hl] at hp
    cases hf : filterDocs classify s.documents with
    | none => rw [hf] at hp; exact absurd hp (by simp)
    | some fd =>
      rw [hf] at hp
      simp only [Option.map_some', Option.some.injEq] at hp
      exact ⟨lc, fd, rfl, rfl, hp.symm⟩

theorem rewrite_node_inv {rewritten : String} {s : GraphState} {p : Patch}
    (hp : rewrite_query_node rewritten s = some p) :
    ∃ lc, s.loop_count = some lc ∧
      p = { question := some rewritten, documents := some s.documents,
            loop_count := some (some (lc + 1)) } := by
  unfold rewrite_query_node at hp
  cases hl : s.loop_count with
  | none => rw [hl] at hp; exact absurd hp (by simp)
  | some lc =>
    rw [hl] at hp
    simp only [Option.some.injEq] at hp
    exact ⟨lc, rfl, hp.symm⟩

theorem explain_node_inv {content : String}
    {parse : String → Option (List (String × String))} {p : Patch}
    (hp : explain_jargon_node (some content) parse = some p) :
    p = { jargon_dict := some ((parse (stripMarkdown content)).getD []) } := by
  simpa [explain_jargon_node] using hp.symm

theorem generate_node_inv {complete : Option String} {s : GraphState} {p : Patch}
    (hp : generate_answer_node complete s = some p) :
    ∃ lc g, s.loop_count = some lc ∧ p = { generation := some g } := by
  cases hl : s.loop_count with
  | none =>
    simp only [generate_answer_node, hl] at hp
    exact absurd hp (by simp)
  | some lc =>
    simp only [generate_answer_node, hl] at hp
    split at hp
    · simp only [Option.some.injEq] at hp
      exact ⟨lc, fallbackApology, rfl, hp.symm⟩
    · cases complete with
      | none => exact absurd hp (by simp)
      | some t =>
        simp only [Option.map_some', Option.some.injEq] at hp
        exact ⟨lc, t, rfl, hp.symm⟩

/-- Which targets the conditional edge can route to, and under what
conditions on the post-grading state. -/
theorem grade_route_inv {s' : GraphState} {n : Node}
    (h : (grade_decision_edge s').bind decisionTarget = some n) :
    ∃ lc, s'.loop_count = some lc ∧
      ((s'.documents ≠ [] ∧ n = .explain_jargon) ∨
       (s'.documents = [] ∧ lc < 3 ∧ n = .rewrite_query) ∨
       (s'.documents = [] ∧ 3 ≤ lc ∧ n = .generate_answer)) := by
  cases hl : s'.loop_count with
  | none => simp [grade_decision_edge, hl] at h
  | some lc =>
    refine ⟨lc, rfl, ?_⟩
    rcases hds : s'.documents with _ | ⟨d, ds⟩
    · by_cases h3 : 3 ≤ lc
      · simp [grade_decision_edge, hl, hds, h3, decisionTarget] at h
        exact Or.inr (Or.inr ⟨rfl, h3, h.symm⟩)
      · simp [grade_decision_edge, hl, hds, h3, decisionTarget] at h
        exact Or.inr (Or.inl ⟨rfl, by omega, h.symm⟩)
    · simp [grade_decision_edge, hl, hds, decisionTarget] at h
      exact Or.inl ⟨by simp, h.symm⟩

/-- No step leaves the terminal vertex. -/
theorem step_from_terminal {s : GraphState} {c' : Config}
    (h : Step (Node.terminal, s) c') : False := by
  cases h

/-- The only step out of the Generate node goes to the terminal vertex. -/
theorem step_from_generate {s : GraphState} {c' : Config}
    (h : Step (Node.generate_answer, s) c') : c'.1 = Node.terminal := by
  cases h; rfl

/-- The only predecessor of the terminal vertex is the Generate node. -/
theorem step_into_terminal {c : Config} {s' : GraphState}
    (h : Step c (Node.terminal, s')) : c.1 = Node.generate_answer := by
  cases h with
  | grade_step s classify p n hp hn =>
    exfalso
    obtain ⟨lc, _, hroute⟩ := grade_route_inv hn
    rcases hroute with ⟨_, h⟩ | ⟨_, _, h⟩ | ⟨_, _, h⟩ <;> exact Node.noConfusion h
  | generate_step s complete p hp => rfl

/-- The reachability invariant of the compiled graph: the loop counter never
passes 3, Rewrite is only ever entered with budget remaining, ExplainJargon
is only entered on a non-empty filtered list, and Generate is entered on an
empty list only with the counter exactly 3. -/
def Inv (c : Config) : Prop :=
  (∀ lc, c.2.loop_count = some lc → lc ≤ 3) ∧
  (c.1 = Node.rewrite_query → ∃ lc, c.2.loop_count = some lc ∧ lc < 3) ∧
  (c.1 = Node.explain_jargon → c.2.documents ≠ []) ∧
  (c.1 = Node.generate_answer → c.2.documents = [] → c.2.loop_count = some 3)

theorem inv_init (s : GraphState)
    (h : s.loop_count = none ∨ s.loop_count = some 0) :
    Inv (Node.retrieve, s) := by
  refine ⟨?_, by simp, by simp, by simp⟩
  intro lc hlc
  rcases h with h | h <;> rw [h] at hlc
  · exact absurd hlc (by simp)
  · simp only [Option.some.injEq] at hlc; omega

theorem inv_step {c c' : Config} (hinv : Inv c) (hs : Step c c') : Inv c' := by
  obtain ⟨h1, h2, h3, h4⟩ := hinv
  cases hs with
  | retrieve_step s retrieved =>
    refine ⟨?_, by simp, by simp, by simp⟩
    intro lc hlc
    simp only [applyPatch, retrieve_node, Option.getD_some, Option.some.injEq] at hlc
    cases hsl : s.loop_count with
    | none => rw [hsl] at hlc; simp at hlc; omega
    | some l => rw [hsl] at hlc; simp at hlc; have := h1 l hsl; omega
  | grade_step s classify p n hp hn =>
    obtain ⟨lc, fd, hsl, hf, rfl⟩ := grade_node_inv hp
    obtain ⟨lc', hl', hroute⟩ := grade_route_inv hn
    have hlc' : lc' = lc := by
      simp only [applyPatch, Option.getD_some, Option.some.injEq] at hl'
      exact hl'.symm
    subst hlc'
    have hlc3 : lc' ≤ 3 := h1 lc' hsl
    refine ⟨?_, ?_, ?_, ?_⟩
    · intro l hl
      simp only [applyPatch, Option.getD_some] at hl
      simp only [Option.some.injEq] at hl
      omega
    · intro hnr
      rcases hroute with ⟨_, rfl⟩ | ⟨_, hlt, rfl⟩ | ⟨_, _, rfl⟩
      · exact absurd hnr (by simp)
      · exact ⟨lc', by simp [applyPatch], hlt⟩
      · exact absurd hnr (by simp)
    · intro hne
      rcases hroute with ⟨hdne, rfl⟩ | ⟨_, _, rfl⟩ | ⟨_, _, rfl⟩
      · exact hdne
      · exact absurd hne (by simp)
      · exact absurd hne (by simp)
    · intro hng hde
      rcases hroute with ⟨_, rfl⟩ | ⟨_, _, rfl⟩ | ⟨_, hge, rfl⟩
      · exact absurd hng (by simp)
      · exact absurd hng (by simp)
      · simp only [applyPatch, Option.getD_some]
        have : lc' = 3 := by omega
        rw [this]
  | rewrite_step s rewritten p hp =>
    obtain ⟨lc, hsl, rfl⟩ := rewrite_node_inv hp
    obtain ⟨lc0, hl0, hlt⟩ := h2 rfl
    have heq : lc = lc0 := by rw [hsl] at hl0; simpa using hl0
    refine ⟨?_, by simp, by simp, by simp⟩
    intro l hl
    simp only [applyPatch, Option.getD_some, Option.some.injEq] at hl
    omega
  | explain_step s content parse p hp =>
    have hpe := explain_node_inv hp
    subst hpe
    refine ⟨?_, by simp, by simp, ?_⟩
    · intro l hl
      simp only [applyPatch, Option.getD_none] at hl
      exact h1 l hl
    · intro _ hdocs
      simp only [applyPatch, Option.getD_none] at hdocs
      exact absurd hdocs (h3 rfl)
  | generate_step s complete p hp =>
    obtain ⟨lc, g, hsl, rfl⟩ := generate_node_inv hp
    refine ⟨?_, by simp, by simp, by simp⟩
    intro l hl
    simp only [applyPatch, Option.getD_none] at hl
    exact h1 l hl

/-- A strictly decreasing measure on reachable configurations. -/
def cfgMeasure (c : Config) : Nat :=
  match c.1 with
  | .retrieve => 3 * (3 - c.2.loop_count.getD 0) + 5
  | .grade_documents => 3 * (3 - c.2.loop_count.getD 0) + 4
  | .rewrite_query => 3 * (3 - c.2.loop_count.getD 0) + 3
  | .explain_jargon => 2
  | .generate_answer => 1
  | .terminal => 0

theorem measure_decreases {c c' : Config} (hinv : Inv c) (hs : Step c c') :
    cfgMeasure c' < cfgMeasure c := by
  obtain ⟨h1, h2, h3, h4⟩ := hinv
  cases hs with
  | retrieve_step s retrieved =>
    simp only [cfgMeasure, applyPatch, retrieve_node, Option.getD_some]
    omega
  | grade_step s classify p n hp hn =>
    obtain ⟨lc, fd, hsl, hf, rfl⟩ := grade_node_inv hp
    obtain ⟨lc', hl', hroute⟩ := grade_route_inv hn
    rcases hroute with ⟨_, rfl⟩ | ⟨_, _, rfl⟩ | ⟨_, _, rfl⟩ <;>
      simp only [cfgMeasure, applyPatch, Option.getD_some, hsl] <;> omega
  | rewrite_step s rewritten p hp =>
    obtain ⟨lc, hsl, rfl⟩ := rewrite_node_inv hp
    obtain ⟨lc0, hl0, hlt⟩ := h2 rfl
    have heq : lc = lc0 := by rw [hsl] at hl0; simpa using hl0
    simp only [cfgMeasure, applyPatch, Option.getD_some, hsl]
    omega
  | explain_step s content parse p hp =>
    have hpe := explain_node_inv hp
    subst hpe
    simp only [cfgMeasure]
    omega
  | generate_step s complete p hp =>
    obtain ⟨lc, g, hsl, rfl⟩ := generate_node_inv hp
    simp only [cfgMeasure]
    omega

/-- The loop counter changes by exactly the number of rewrites: +1 on a
Rewrite step, unchanged on every other step. -/
theorem lc_step {c c' : Config} (hs : Step c c') :
    c'.2.loop_count.getD 0 =
      c.2.loop_count.getD 0 + (if c.1 = Node.rewrite_query then 1 else 0) := by
  cases hs with
  | retrieve_step s retrieved =>
    simp [applyPatch, retrieve_node]
  | grade_step s classify p n hp hn =>
    obtain ⟨lc, fd, hsl, hf, rfl⟩ := grade_node_inv hp
    simp [applyPatch, hsl]
  | rewrite_step s rewritten p hp =>
    obtain ⟨lc, hsl, rfl⟩ := rewrite_node_inv hp
    simp [applyPatch, hsl]
  | explain_step s content parse p hp =>
    have hpe := explain_node_inv hp
    subst hpe
    simp [applyPatch]
  | generate_step s complete p hp =>
    obtain ⟨lc, g, hsl, rfl⟩ := generate_node_inv hp
    simp [applyPatch, hsl]

theorem lc_getD_le {c : Config} (h : Inv c) : c.2.loop_count.getD 0 ≤ 3 := by
  cases hl : c.2.loop_count with
  | none => simp
  | some lc => simpa [hl] using h.1 lc hl

/-! Lemmas along an execution trace `f 0, f 1, …` of the compiled graph. -/

theorem trace_inv (f : ℕ → Config) (n : ℕ) (h0 : Inv (f 0))
    (hstep : ∀ i, i < n → Step (f i) (f (i + 1))) :
    ∀ i, i ≤ n → Inv (f i) := by
  intro i
  induction i with
  | zero => exact fun _ => h0
  | succ j ih =>
    intro hj
    exact inv_step (ih (by omega)) (hstep j (by omega))

theorem trace_measure (f : ℕ → Config) (n : ℕ) (h0 : Inv (f 0))
    (hstep : ∀ i, i < n → Step (f i) (f (i + 1))) :
    ∀ i, i ≤ n → cfgMeasure (f i) + i ≤ cfgMeasure (f 0) := by
  intro i
  induction i with
  | zero => simp
  | succ j ih =>
    intro hj
    have hinvj := trace_inv f n h0 hstep j (by omega)
    have hd := measure_decreases hinvj (hstep j (by omega))
    have := ih (by omega)
    omega

theorem trace_lc (f : ℕ → Config) (n : ℕ)
    (hstep : ∀ i, i < n → Step (f i) (f (i + 1))) :
    ∀ i, i ≤ n →
      (f i).2.loop_count.getD 0 =
        (f 0).2.loop_count.getD 0 +
          ((Finset.range i).filter (fun j => (f j).1 = Node.rewrite_query)).card := by
  intro i
  induction i with
  | zero => simp
  | succ j ih =>
    intro hj
    have hlc := lc_step (hstep j (by omega))
    rw [Finset.range_succ, Finset.filter_insert]
    by_cases hrw : (f j).1 = Node.rewrite_query
    · rw [if_pos hrw, Finset.card_insert_of_not_mem (by simp)]
      rw [hlc, ih (by omega), if_pos hrw]
      ring
    · rw [if_neg hrw, hlc, ih (by omega), if_neg hrw]
      omega

/-! Concrete inputs used by witnesses and counterexamples. -/

def dA : Document := ⟨"A", []⟩
def dB : Document := ⟨"B", []⟩
def dC : Document := ⟨"C", []⟩
def dD : Document := ⟨"D", []⟩

/-- A relevance grader classifying exactly `dB` and `dD` as relevant. -/
def relW : Document → Bool := fun d => d.page_content == "B" || d.page_content == "D"

/-- A grader whose model call raises exactly on document `dB`. -/
def clsFailB : Document → Option Bool :=
  fun d => if d.page_content = "B" then none else some true

def stW1 : GraphState :=
  { question := "q", documents := [], generation := "", jargon_dict := [], loop_count := some 0 }

def stW5 : GraphState :=
  { question := "q", documents := [dA, dB, dC, dD], generation := "", jargon_dict := [],
    loop_count := some 0 }

def stC3 : GraphState :=
  { question := "q", documents := [dA, dB, dC], generation := "", jargon_dict := [],
    loop_count := some 0 }

def stC4 : GraphState :=
  { question := "q", documents := [], generation := "", jargon_dict := [], loop_count := some 3 }

def stC4b : GraphState :=
  { question := "q", documents := [], generation := "", jargon_dict := [], loop_count := some 4 }

/-- The reply text of a model that answers with the JSON object having one
empty-string key mapped to an empty-string value. -/
def jsonEmptyKey : String := "\x7b\x22\x22: \x22\x22\x7d"

/-- The behaviour of `json.loads` on `jsonEmptyKey`: the object parses
successfully (an empty key is legal JSON) to the singleton mapping with an
empty term and empty definition. -/
def parseEmptyKey : String → Option (List (String × String)) :=
  fun r => if r = jsonEmptyKey then some [("", "")] else none

/-- C1: the transition out of Grade is exactly: non-empty filtered list goes
to ExplainJargon; empty with loopCount < 3 goes to Rewrite; empty with
loopCount ≥ 3 goes to Generate — and no other label is possible. -/
theorem grade_decision_edge_characterization (s : GraphState) (lc : Nat)
    (h : s.loop_count = some lc) :
    (grade_decision_edge s = some "explain_jargon" ↔ s.documents ≠ []) ∧
    (grade_decision_edge s = some "rewrite" ↔ s.documents = [] ∧ lc < 3) ∧
    (grade_decision_edge s = some "generate" ↔ s.documents = [] ∧ 3 ≤ lc) ∧
    (grade_decision_edge s = some "explain_jargon" ∨
      grade_decision_edge s = some "rewrite" ∨
      grade_decision_edge s = some "generate") := by
  rcases hds : s.documents with _ | ⟨d, ds⟩
  · by_cases h3 : 3 ≤ lc
    · simp [grade_decision_edge, h, hds, h3]
    · simp [grade_decision_edge, h, hds, h3]
      omega
  · simp [grade_decision_edge, h, hds]

/-- Witness for C1 at the concrete state `stW1` (no documents, loop 0). -/
theorem grade_decision_edge_characterization_witness :
    (grade_decision_edge stW1 = some "explain_jargon" ↔ stW1.documents ≠ []) ∧
    (grade_decision_edge stW1 = some "rewrite" ↔ stW1.documents = [] ∧ 0 < 3) ∧
    (grade_decision_edge stW1 = some "generate" ↔ stW1.documents = [] ∧ 3 ≤ 0) ∧
    (grade_decision_edge stW1 = some "explain_jargon" ∨
      grade_decision_edge stW1 = some "rewrite" ∨
      grade_decision_edge stW1 = some "generate") :=
  grade_decision_edge_characterization stW1 0 rfl

/-- C5: with a total relevance grader, Grade returns exactly the relevant
documents filtered in the original order (an order-preserving subsequence,
keep iff relevant), leaves question and loopCount unchanged, and on
candidates [A,B,C,D] with exactly B,D relevant it yields [B,D]. -/
theorem grade_documents_filter_spec (rel : Document → Bool) (s : GraphState) (lc : Nat)
    (h : s.loop_count = some lc) :
    grade_documents_node (fun d => some (rel d)) s =
      some { documents := some (s.documents.filter rel),
             question := some s.question, loop_count := some (some lc) } ∧
    applyPatch s { documents := some (s.documents.filter rel),
                   question := some s.question, loop_count := some (some lc) } =
      { s with documents := s.documents.filter rel } ∧
    (s.documents.filter rel).Sublist s.documents ∧
    (∀ d, d ∈ s.documents.filter rel ↔ d ∈ s.documents ∧ rel d = true) ∧
    ∀ A B C D : Document, rel A = false → rel B = true → rel C = false → rel D = true →
      [A, B, C, D].filter rel = [B, D] := by
  refine ⟨?_, ?_, List.filter_sublist _, ?_, ?_⟩
  · simp [grade_documents_node, h, filterDocs_total]
  · simp [applyPatch, h]
  · intro d; simp [List.mem_filter]
  · intro A B C D hA hB hC hD
    simp [List.filter_cons, hA, hB, hC, hD]

/-- Witness for C5: the spec's [A,B,C,D] scenario at the concrete state
`stW5` with grader `relW`. -/
theorem grade_documents_filter_spec_witness :
    [dA, dB, dC, dD].filter relW = [dB, dD] :=
  (grade_documents_filter_spec relW stW5 0 rfl).2.2.2.2 dA dB dC dD
    (by decide) (by decide) (by decide) (by decide)

/-- C3 counterexample: when the classification call raises on document `dB`
of [A,B,C], `grade_documents_node` does NOT recover to the filtered list
[A,C] — the exception propagates and the node aborts (result `none`),
because the Python grading loop has no try/except around the grader call. -/
theorem grade_documents_failure_aborts_cex :
    grade_documents_node clsFailB stC3 = none ∧
    grade_documents_node clsFailB stC3 ≠
      some { documents := some [dA, dC], question := some "q",
             loop_count := some (some 0) } := by
  exact ⟨by decide, by decide⟩

/-- C3 amended: a per-document classification failure is NOT recovered; if
the grader raises on any document of the batch, the whole Grade node aborts
(no patch is produced) and the remaining documents are not graded. -/
theorem grade_documents_failure_propagates (classify : Document → Option Bool)
    (s : GraphState) (d : Document) (hd : d ∈ s.documents) (hfail : classify d = none) :
    grade_documents_node classify s = none := by
  unfold grade_documents_node
  cases hl : s.loop_count with
  | none => rfl
  | some lc => simp [filterDocs_fail classify s.documents ⟨d, hd, hfail⟩]

/-- Witness for the amended C3 at a concrete one-document state. -/
theorem grade_documents_failure_propagates_witness :
    grade_documents_node clsFailB
      { question := "w", documents := [dB], generation := "", jargon_dict := [],
        loop_count := some 2 } = none :=
  grade_documents_failure_propagates clsFailB _ dB (by decide) (by decide)

/-- C4 counterexample: on the fallback path the generation is the code's
literal apology sentence, which is not the string
"insufficient information found" quoted by the claim. -/
theorem generate_fallback_string_cex :
    generate_answer_node none stC4 = some { generation := some fallbackApology } ∧
    fallbackApology ≠ "insufficient information found" := by
  exact ⟨by decide, by decide⟩

/-- C4 amended: entering Generate with an empty document list and
loopCount ≥ 3 returns the fixed apology sentence of `fallbackApology` for
EVERY outcome of the completion capability — including an unavailable one
(`complete = none`), i.e. no model call is consumed; otherwise the node
takes the grounded-synthesis path, returning the completion's text. The two
branches are mutually exclusive. -/
theorem generate_fallback_characterization (s : GraphState) (lc : Nat)
    (complete : Option String) (h : s.loop_count = some lc) :
    (s.documents = [] ∧ 3 ≤ lc →
      generate_answer_node complete s = some { generation := some fallbackApology }) ∧
    (¬(s.documents = [] ∧ 3 ≤ lc) →
      generate_answer_node complete s = complete.map fun text => { generation := some text }) := by
  constructor
  · rintro ⟨he, h3⟩
    simp [generate_answer_node, h, he, h3]
  · intro hn
    simp only [generate_answer_node, h, List.isEmpty_iff]
    rw [if_neg hn]

/-- Witness for the amended C4 at the concrete state `stC4b` with an
unavailable completion capability. -/
theorem generate_fallback_characterization_witness :
    generate_answer_node none stC4b = some { generation := some fallbackApology } :=
  (generate_fallback_characterization stC4b 4 none rfl).1 ⟨rfl, by decide⟩

/-- C6 counterexample: when the jargon model call itself raises
(`reply = none`), the node does not degrade to an empty mapping — it aborts,
because `chain.invoke({})` sits outside the try block in the source. -/
theorem explain_jargon_model_failure_cex :
    explain_jargon_node none (fun _ => none) = none ∧
    explain_jargon_node none (fun _ => none) ≠ some { jargon_dict := some [] } := by
  exact ⟨rfl, by decide⟩

/-- C6 amended: a failure of the underlying model call is NOT caught — the
ExplainJargon step aborts; only a failure while parsing a received reply is
caught and degrades to the empty mapping. -/
theorem explain_jargon_failure_semantics
    (parse : String → Option (List (String × String))) (content : String) :
    explain_jargon_node none parse = none ∧
    (parse (stripMarkdown content) = none →
      explain_jargon_node (some content) parse = some { jargon_dict := some [] }) := by
  refine ⟨rfl, fun hp => ?_⟩
  simp [explain_jargon_node, hp]

/-- Witness for the amended C6: an unparseable reply yields the empty
mapping. -/
theorem explain_jargon_failure_semantics_witness :
    explain_jargon_node (some "no json here") (fun _ => none) =
      some { jargon_dict := some [] } :=
  (explain_jargon_failure_semantics (fun _ => none) "no json here").2 rfl

/-- C7 counterexample: the reply consisting of the JSON object with one
empty key parses successfully, so the resulting jargon mapping is the
non-empty, NOT well-formed mapping with an empty term key — the code
performs no validation of parsed keys or definitions. -/
theorem explain_jargon_wellformed_cex :
    explain_jargon_node (some jsonEmptyKey) parseEmptyKey =
      some { jargon_dict := some [("", "")] } ∧
    ¬ WellFormedJargon [("", "")] ∧
    ([("", "")] : List (String × String)) ≠ [] := by
  exact ⟨by decide, by decide, by decide⟩

/-- C7 amended: for every model reply the ExplainJargon step produces some
jargon mapping without raising; an unparseable reply yields the empty
mapping, and a parseable reply is used exactly as parsed, with no
well-formedness validation of term keys or definitions. -/
theorem explain_jargon_parse_semantics (content : String)
    (parse : String → Option (List (String × String))) :
    (∃ m, explain_jargon_node (some content) parse = some { jargon_dict := some m }) ∧
    (parse (stripMarkdown content) = none →
      explain_jargon_node (some content) parse = some { jargon_dict := some [] }) ∧
    ∀ m, parse (stripMarkdown content) = some m →
      explain_jargon_node (some content) parse = some { jargon_dict := some m } := by
  refine ⟨⟨_, rfl⟩, fun hp => by simp [explain_jargon_node, hp],
    fun m hp => by simp [explain_jargon_node, hp]⟩

/-- Witness for the amended C7 at the empty-key JSON reply. -/
theorem explain_jargon_parse_semantics_witness :
    explain_jargon_node (some jsonEmptyKey) parseEmptyKey =
      some { jargon_dict := some [("", "")] } :=
  (explain_jargon_parse_semantics jsonEmptyKey parseEmptyKey).2.2 [("", "")] (by decide)

/-- C8: the Rewrite step increments loopCount by exactly 1 and returns the
input documents unchanged (the question is replaced by the rewritten one). -/
theorem rewrite_query_increments_loop (s : GraphState) (lc : Nat) (rewritten : String)
    (h : s.loop_count = some lc) :
    ∃ p, rewrite_query_node rewritten s = some p ∧
      applyPatch s p = { s with question := rewritten, loop_count := some (lc + 1) } ∧
      (applyPatch s p).documents = s.documents ∧
      (applyPatch s p).loop_count = some (lc + 1) := by
  refine ⟨{ question := some rewritten, documents := some s.documents,
            loop_count := some (some (lc + 1)) }, ?_, ?_, ?_, ?_⟩
  · simp [rewrite_query_node, h]
  · simp [applyPatch]
  · simp [applyPatch]
  · simp [applyPatch]

/-- Witness for C8 at the concrete state `stW5`. -/
theorem rewrite_query_increments_loop_witness :
    ∃ p, rewrite_query_node "better question" stW5 = some p ∧
      applyPatch stW5 p =
        { stW5 with question := "better question", loop_count := some (0 + 1) } ∧
      (applyPatch stW5 p).documents = stW5.documents ∧
      (applyPatch stW5 p).loop_count = some (0 + 1) :=
  rewrite_query_increments_loop stW5 0 "better question" rfl

/-- C2: from the initial configuration (Retrieve, loopCount = 0) every
execution trace of the compiled graph is finite (at most 14 configurations
are ever visited), contains at most 3 Rewrite steps, keeps the loop counter
at most 3 throughout, and — when it reaches the terminal vertex — has run
Generate exactly once, as its final step; the machine is terminal after
Generate (no step leaves the terminal vertex). -/
theorem rag_graph_terminates (s₀ : GraphState) (f : ℕ → Config) (n : ℕ)
    (h0 : f 0 = (Node.retrieve, s₀)) (hlc : s₀.loop_count = some 0)
    (hstep : ∀ i, i < n → Step (f i) (f (i + 1))) :
    n ≤ 14 ∧
    ((Finset.range n).filter (fun i => (f i).1 = Node.rewrite_query)).card ≤ 3 ∧
    (∀ i, i ≤ n → (f i).2.loop_count.getD 0 ≤ 3) ∧
    (∀ i, i < n → (f i).1 = Node.generate_answer → (f (i + 1)).1 = Node.terminal) ∧
    (∀ i, i < n → (f i).1 ≠ Node.terminal) ∧
    ((f n).1 = Node.terminal →
      ((Finset.range n).filter (fun i => (f i).1 = Node.generate_answer)).card = 1) := by
  have h0inv : Inv (f 0) := by rw [h0]; exact inv_init s₀ (Or.inr hlc)
  have hm0 : cfgMeasure (f 0) = 14 := by rw [h0]; simp [cfgMeasure, hlc]
  have hlc0 : (f 0).2.loop_count.getD 0 = 0 := by rw [h0]; simp [hlc]
  refine ⟨?_, ?_, ?_, ?_, ?_, ?_⟩
  · have := trace_measure f n h0inv hstep n le_rfl
    omega
  · have hlcn := trace_lc f n hstep n le_rfl
    have hle := lc_getD_le (trace_inv f n h0inv hstep n le_rfl)
    omega
  · intro i hi
    exact lc_getD_le (trace_inv f n h0inv hstep i hi)
  · intro i hi hgen
    have hs := hstep i hi
    rcases hfi : f i with ⟨ni, si⟩
    rw [hfi] at hs hgen
    have hg : ni = Node.generate_answer := hgen
    subst hg
    exact step_from_generate hs
  · intro i hi hterm
    have hs := hstep i hi
    rcases hfi : f i with ⟨ni, si⟩
    rw [hfi] at hs hterm
    have hg : ni = Node.terminal := hterm
    subst hg
    exact step_from_terminal hs
  · intro hterm
    have hn0 : n ≠ 0 := by
      intro h
      rw [h, h0] at hterm
      exact Node.noConfusion hterm
    have hkey : ∀ i, i < n → ((f i).1 = Node.generate_answer ↔ i = n - 1) := by
      intro i hi
      constructor
      · intro hgen
        by_contra hne
        have hi1 : i + 1 < n := by omega
        have ht : (f (i + 1)).1 = Node.terminal := by
          have hs := hstep i hi
          rcases hfi : f i with ⟨ni, si⟩
          rw [hfi] at hs hgen
          have hg : ni = Node.generate_answer := hgen
          subst hg
          exact step_from_generate hs
        have hs2 := hstep (i + 1) hi1
        rcases hfi1 : f (i + 1) with ⟨ni1, si1⟩
        rw [hfi1] at hs2 ht
        have hg1 : ni1 = Node.terminal := ht
        subst hg1
        exact step_from_terminal hs2
      · intro hieq
        subst hieq
        have hs := hstep (n - 1) (by omega)
        have hn1 : n - 1 + 1 = n := by omega
        rw [hn1] at hs
        rcases hfn : f n with ⟨nn, sn⟩
        rw [hfn] at hs hterm
        have hg : nn = Node.terminal := hterm
        subst hg
        exact step_into_terminal hs
    have hset : (Finset.range n).filter (fun i => (f i).1 = Node.generate_answer) = {n - 1} := by
      ext i
      simp only [Finset.mem_filter, Finset.mem_range, Finset.mem_singleton]
      constructor
      · rintro ⟨hi, hgen⟩
        exact (hkey i hi).mp hgen
      · intro hieq
        subst hieq
        exact ⟨by omega, (hkey (n - 1) (by omega)).mpr rfl⟩
    rw [hset]
    simp

/-- C9: from any start with a loop counter of 0 or an absent loop counter
(which Retrieve defaults to 0), every reachable configuration has a loop
counter of at most 3, and a configuration entering Generate with an empty
document list carries exactly the counter value 3. -/
theorem loop_count_invariant (s₀ : GraphState) (c : Config)
    (h0 : s₀.loop_count = none ∨ s₀.loop_count = some 0)
    (hreach : Relation.ReflTransGen Step (Node.retrieve, s₀) c) :
    (∀ lc, c.2.loop_count = some lc → lc ≤ 3) ∧
    (c.1 = Node.generate_answer → c.2.documents = [] → c.2.loop_count = some 3) := by
  have hinv : Inv c := by
    induction hreach with
    | refl => exact inv_init s₀ h0
    | tail hab hbc ih => exact inv_step ih hbc
  exact ⟨hinv.1, hinv.2.2.2⟩

/-- C10: the ExplainJargon step's patch touches only `jargon_dict`;
question, documents, loopCount and generation survive unchanged into the
following Generate step. -/
theorem explain_jargon_frame (content : String)
    (parse : String → Option (List (String × String))) (s : GraphState) (p : Patch)
    (hp : explain_jargon_node (some content) parse = some p) :
    (applyPatch s p).question = s.question ∧
    (applyPatch s p).documents = s.documents ∧
    (applyPatch s p).loop_count = s.loop_count ∧
    (applyPatch s p).generation = s.generation := by
  have hpe : p = { jargon_dict := some ((parse (stripMarkdown content)).getD []) } := by
    simpa [explain_jargon_node] using hp.symm
  subst hpe
  simp [applyPatch]

/-- Witness for C10 at a concrete reply and state. -/
theorem explain_jargon_frame_witness :
    (applyPatch stW5 { jargon_dict := some [] }).question = stW5.question ∧
    (applyPatch stW5 { jargon_dict := some [] }).documents = stW5.documents ∧
    (applyPatch stW5 { jargon_dict := some [] }).loop_count = stW5.loop_count ∧
    (applyPatch stW5 { jargon_dict := some [] }).generation = stW5.generation :=
  explain_jargon_frame "plain text" (fun _ => none) stW5 { jargon_dict := some [] } rfl

/-! A concrete complete run for the trace witnesses: one retrieval finding
document `dA`, grading it relevant, explaining jargon (unparseable reply),
and generating the answer "ans". -/

def sW2 : GraphState :=
  { question := "q", documents := [dA], generation := "", jargon_dict := [],
    loop_count := some 0 }

def sW4 : GraphState :=
  { question := "q", documents := [dA], generation := "ans", jargon_dict := [],
    loop_count := some 0 }

def fW : ℕ → Config
  | 0 => (Node.retrieve, stW1)
  | 1 => (Node.grade_documents, sW2)
  | 2 => (Node.explain_jargon, sW2)
  | 3 => (Node.generate_answer, sW2)
  | _ => (Node.terminal, sW4)

theorem fW_steps : ∀ i, i < 4 → Step (fW i) (fW (i + 1)) := by
  intro i hi
  interval_cases i
  · exact Step.retrieve_step stW1 [dA]
  · exact Step.grade_step sW2 (fun _ => some true)
      { documents := some [dA], question := some "q", loop_count := some (some 0) }
      Node.explain_jargon (by decide) (by decide)
  · exact Step.explain_step sW2 "no json" (fun _ => none) { jargon_dict := some [] } rfl
  · exact Step.generate_step sW2 (some "ans") { generation := some "ans" } (by decide)

/-- Witness for C2 on the concrete four-step run `fW`. -/
theorem rag_graph_terminates_witness :
    4 ≤ 14 ∧
    ((Finset.range 4).filter (fun i => (fW i).1 = Node.rewrite_query)).card ≤ 3 ∧
    (∀ i, i ≤ 4 → (fW i).2.loop_count.getD 0 ≤ 3) ∧
    (∀ i, i < 4 → (fW i).1 = Node.generate_answer → (fW (i + 1)).1 = Node.terminal) ∧
    (∀ i, i < 4 → (fW i).1 ≠ Node.terminal) ∧
    ((fW 4).1 = Node.terminal →
      ((Finset.range 4).filter (fun i => (fW i).1 = Node.generate_answer)).card = 1) :=
  rag_graph_terminates stW1 fW 4 rfl rfl fW_steps

/-- Witness for C9 at the configuration one step into the run `fW`. -/
theorem loop_count_invariant_witness :
    (∀ lc, ((Node.grade_documents, sW2) : Config).2.loop_count = some lc → lc ≤ 3) ∧
    (((Node.grade_documents, sW2) : Config).1 = Node.generate_answer →
      ((Node.grade_documents, sW2) : Config).2.documents = [] →
      ((Node.grade_documents, sW2) : Config).2.loop_count = some 3) :=
  loop_count_invariant stW1 (Node.grade_documents, sW2) (Or.inr rfl)
    (Relation.ReflTransGen.single (fW_steps 0 (by omega)))

end FinancialRAG
